import Mathlib

/-!
Shallow embedding of the SVU Value Graph and Data-Quality Engine
(src/pipeline/ingest.py, src/pipeline/validate.py,
src/models/graph_structure.py), together with theorems settling the
spec claims about it.

Numbers: Python floats are modelled as ℚ (the code performs only
ring operations and comparisons, except for pandas std which is kept
symbolic, see FVal below); machine-level float rounding is not at
issue in any claim.
-/

namespace SVU

/-- Embeds `DataPoint` of src/pipeline/ingest.py: a unified record held
in the ingestion buffer.  `source_item_id`/`target_item_id` are `none`
for price points, mirroring the optional dataclass fields. -/
structure DataPoint where
  timestamp : ℚ
  item_id : ℤ
  value : ℚ
  source : String
  confidence : ℚ
  type : String
  source_item_id : Option ℤ := none
  target_item_id : Option ℤ := none
deriving DecidableEq, Repr

/-- The groupby key of `merge_data`: the code groups the buffered frame
by the two columns `['timestamp', 'item_id']` only. -/
def mergeKey (dp : DataPoint) : ℚ × ℤ :=
  (dp.timestamp, dp.item_id)

/-- Lexicographic order on group keys, mirroring the ascending key sort
pandas `groupby` applies to the groups. -/
def keyLE (a b : ℚ × ℤ) : Bool :=
  decide (a.1 < b.1 ∨ (a.1 = b.1 ∧ a.2 ≤ b.2))

/-- Insertion step of the key sort. -/
def insertKey (k : ℚ × ℤ) : List (ℚ × ℤ) → List (ℚ × ℤ)
  | [] => [k]
  | a :: t => if keyLE k a then k :: a :: t else a :: insertKey k t

/-- Sorts the group keys ascending (pandas `groupby` default). -/
def sortKeys (l : List (ℚ × ℤ)) : List (ℚ × ℤ) :=
  l.foldr insertKey []

/-- The distinct group keys of the buffered frame, in ascending order. -/
def groupKeys (buffer : List DataPoint) : List (ℚ × ℤ) :=
  sortKeys (buffer.map mergeKey).dedup

/-- The rows of one groupby group, in ingestion (row) order. -/
def groupRows (buffer : List DataPoint) (k : ℚ × ℤ) : List DataPoint :=
  buffer.filter (fun dp => decide (mergeKey dp = k))

/-- `group = group[group['confidence'] >= min_confidence]`. -/
def confFilter (min_confidence : ℚ) (g : List DataPoint) : List DataPoint :=
  g.filter (fun dp => decide (min_confidence ≤ dp.confidence))

/-- `if priority_sources: ...` — a `None`/empty list is falsy; when the
priority subset of the group is nonempty it replaces the group. -/
def applyPriority (priority_sources : List String) (g : List DataPoint) :
    List DataPoint :=
  if priority_sources = [] then g
  else if g.filter (fun dp => decide (dp.source ∈ priority_sources)) = [] then g
  else g.filter (fun dp => decide (dp.source ∈ priority_sources))

/-- The candidate set of one merge group after the confidence filter and
the priority-source restriction. -/
def candidates (buffer : List DataPoint) (priority_sources : List String)
    (min_confidence : ℚ) (k : ℚ × ℤ) : List DataPoint :=
  applyPriority priority_sources (confFilter min_confidence (groupRows buffer k))

/-- `group.loc[group['confidence'].idxmax()]`: pandas `idxmax` returns
the label of the first occurrence of the maximum, so the accumulator is
replaced only on a strictly larger confidence. -/
def pickBetter (acc : Option DataPoint) (dp : DataPoint) : Option DataPoint :=
  match acc with
  | none => some dp
  | some b => if b.confidence < dp.confidence then some dp else some b

/-- The row `idxmax` selects: the running fold of `pickBetter`. -/
def firstMax (l : List DataPoint) : Option DataPoint :=
  l.foldl pickBetter none

/-- The merged row contributed by the group of key `k` (`none` when the
whole group fell below `min_confidence`, mirroring `continue`). -/
def selectBest (buffer : List DataPoint) (priority_sources : List String)
    (min_confidence : ℚ) (k : ℚ × ℤ) : Option DataPoint :=
  firstMax (candidates buffer priority_sources min_confidence k)

/-- Embeds `DataIngestionPipeline.merge_data`.  On an empty buffer the
code raises `ValueError` inside its own `try` block and the
`except Exception` handler returns an empty DataFrame, so the observable
result is the empty sequence. -/
def merge_data (buffer : List DataPoint) (priority_sources : List String)
    (min_confidence : ℚ) : List DataPoint :=
  if buffer = [] then []
  else (groupKeys buffer).filterMap (selectBest buffer priority_sources min_confidence)

/-- The `confidence_stats` sub-dict of `get_statistics`. -/
structure ConfidenceStats where
  mean : ℚ
  min : ℚ
  max : ℚ
deriving DecidableEq, Repr

/-- Embeds the dict returned by `get_statistics`.  The `sources`
value-counts dict is modelled as its lookup function (count per source
name, 0 for absent keys); the claims never depend on dict ordering. -/
structure Stats where
  total_points : ℕ
  price_points : ℕ
  rate_points : ℕ
  sources : String → ℕ
  confidence_stats : ConfidenceStats

/-- Minimum of a list of rationals (only used on nonempty lists). -/
def listMin : List ℚ → ℚ
  | [] => 0
  | c :: cs => cs.foldl min c

/-- Maximum of a list of rationals (only used on nonempty lists). -/
def listMax : List ℚ → ℚ
  | [] => 0
  | c :: cs => cs.foldl max c

/-- Mean of a list of rationals (only used on nonempty lists). -/
def listMean (l : List ℚ) : ℚ :=
  l.sum / l.length

/-- Embeds `DataIngestionPipeline.get_statistics`: the all-zero dict on
an empty buffer, otherwise counts and confidence aggregates over the
buffered frame. -/
def get_statistics (buffer : List DataPoint) : Stats :=
  if buffer = [] then
    { total_points := 0
      price_points := 0
      rate_points := 0
      sources := fun _ => 0
      confidence_stats := { mean := 0, min := 0, max := 0 } }
  else
    let confs := buffer.map (·.confidence)
    { total_points := buffer.length
      price_points := (buffer.filter (fun dp => decide (dp.type = "price"))).length
      rate_points := (buffer.filter (fun dp => decide (dp.type = "exchange_rate"))).length
      sources := fun s => (buffer.filter (fun dp => decide (dp.source = s))).length
      confidence_stats :=
        { mean := listMean confs, min := listMin confs, max := listMax confs } }

/-! ### src/pipeline/validate.py -/

/-- A cell of the `timestamp` column.  `raw` is a value not yet coerced
(e.g. a string date), `dt` a datetime instant (modelled as ℚ), `null`
a missing value (NaN/NaT).  `pd.to_datetime` maps `raw q` to `dt q` and
fixes the other two. -/
inductive TsCell
  | null
  | raw (q : ℚ)
  | dt (q : ℚ)
deriving DecidableEq, Repr

/-- `pd.to_datetime` on one cell. -/
def toDatetime : TsCell → TsCell
  | .null => .null
  | .raw q => .dt q
  | .dt q => .dt q

/-- A row of the prices frame passed to `validate_price_data`
(columns `timestamp`, `item_id`, `price`; `none` is a null cell). -/
structure PriceRow where
  timestamp : TsCell
  item_id : Option ℤ
  price : Option ℚ
deriving DecidableEq, Repr

/-- A row of the rates frame passed to `validate_exchange_rate_data`
and `validate_data_consistency`. -/
structure RateRow where
  timestamp : TsCell
  source_item_id : Option ℤ
  target_item_id : Option ℤ
  rate : Option ℚ
deriving DecidableEq, Repr

/-- Embeds the dict returned by `validate_price_data` /
`validate_exchange_rate_data`.  Counts are ℤ because `valid_records`
is plain Python subtraction and may go negative. -/
structure ValidationReport where
  total_records : ℤ
  valid_records : ℤ
  invalid_records : ℤ
  missing_values : ℤ
  out_of_range : ℤ
  large_gaps : ℤ
  duplicates : ℤ
  validation_passed : Bool
deriving DecidableEq, Repr

/-- `prices['timestamp'] = pd.to_datetime(prices['timestamp'])` — the
in-place coercion of the timestamp column. -/
def coercePrices (l : List PriceRow) : List PriceRow :=
  l.map (fun r => { r with timestamp := toDatetime r.timestamp })

/-- The same in-place coercion on a rates frame. -/
def coerceRates (l : List RateRow) : List RateRow :=
  l.map (fun r => { r with timestamp := toDatetime r.timestamp })

/-- `prices.isnull().sum().sum()` counts null cells across all three
columns of one row. -/
def priceRowNulls (r : PriceRow) : ℤ :=
  (if r.timestamp = .null then 1 else 0) + (if r.item_id = none then 1 else 0) +
    (if r.price = none then 1 else 0)

/-- Null cells of one rates row (four columns). -/
def rateRowNulls (r : RateRow) : ℤ :=
  (if r.timestamp = .null then 1 else 0) + (if r.source_item_id = none then 1 else 0) +
    (if r.target_item_id = none then 1 else 0) + (if r.rate = none then 1 else 0)

/-- `(prices['price'] < min) | (prices['price'] > max)` on one cell; a
NaN value compares false on both sides, as in pandas. -/
def outOfRangeCell (lo hi : ℚ) : Option ℚ → Bool
  | none => false
  | some p => decide (p < lo ∨ hi < p)

/-- `df.duplicated().sum()` — rows equal to some earlier row
(`keep='first'`); pandas treats equal NaN cells as duplicates. -/
def dupCount {α : Type} [DecidableEq α] : List α → List α → ℤ
  | _, [] => 0
  | seen, r :: rs =>
      (if r ∈ seen then 1 else 0) + dupCount (r :: seen) rs

/-- Order used by `sort_values('timestamp')`: datetimes ascending, NaT
placed last (`na_position='last'`). -/
def tsLE : TsCell → TsCell → Bool
  | .dt a, .dt b => decide (a ≤ b)
  | .dt _, _ => true
  | _, .dt _ => false
  | _, _ => true

/-- Insertion step of the timestamp sort. -/
def insertTs (c : TsCell) : List TsCell → List TsCell
  | [] => [c]
  | a :: t => if tsLE c a then c :: a :: t else a :: insertTs c t

/-- Sorts a timestamp column; only the sorted column matters to the gap
count, so sort stability is irrelevant. -/
def sortTs (l : List TsCell) : List TsCell :=
  l.foldr insertTs []

/-- One `diff()` entry exceeding the gap: both cells must be datetimes
(a NaT difference compares false against the Timedelta). -/
def gapExceeds (max_gap : ℚ) : TsCell → TsCell → Bool
  | .dt a, .dt b => decide (max_gap < b - a)
  | _, _ => false

/-- `(series.diff() > pd.Timedelta(max_gap)).sum()` over a sorted
timestamp column. -/
def countGaps (max_gap : ℚ) : List TsCell → ℤ
  | [] => 0
  | [_] => 0
  | a :: b :: rest => (if gapExceeds max_gap a b then 1 else 0) + countGaps max_gap (b :: rest)

/-- `prices[prices['item_id'] == v]` for a value drawn from
`prices['item_id'].unique()`: a NaN key matches no row (NaN ≠ NaN). -/
def itemGroup (df : List PriceRow) (v : Option ℤ) : List PriceRow :=
  df.filter (fun r => decide (v ≠ none ∧ r.item_id = v))

/-- The per-item large-gap loop of `validate_price_data`. -/
def priceLargeGaps (df : List PriceRow) (max_gap : ℚ) : ℤ :=
  ((df.map (·.item_id)).dedup.map
    (fun v => countGaps max_gap (sortTs ((itemGroup df v).map (·.timestamp))))).sum

/-- Embeds `DataValidationPipeline.validate_price_data`.  Returns the
report together with the frame as it is left after the call (the
timestamp column was coerced in place). -/
def validate_price_data (prices : List PriceRow) (min_price max_price max_gap : ℚ) :
    ValidationReport × List PriceRow :=
  let df := coercePrices prices
  let total : ℤ := df.length
  let missing := (df.map priceRowNulls).sum
  let oor : ℤ := (df.filter (fun r => outOfRangeCell min_price max_price r.price)).length
  let dups := dupCount [] df
  let gaps := priceLargeGaps df max_gap
  let valid := total - missing - oor - dups
  let invalid := total - valid
  ({ total_records := total
     valid_records := valid
     invalid_records := invalid
     missing_values := missing
     out_of_range := oor
     large_gaps := gaps
     duplicates := dups
     validation_passed := decide (0 < valid ∧ invalid = 0) }, df)

/-- `rates[(rates['source_item_id'] == s) & (rates['target_item_id'] == t)]`
for values drawn from the unique() lists; NaN keys match no row. -/
def pairGroup (df : List RateRow) (s t : Option ℤ) : List RateRow :=
  df.filter (fun r =>
    decide (s ≠ none ∧ t ≠ none ∧ r.source_item_id = s ∧ r.target_item_id = t))

/-- The double per-pair large-gap loop of `validate_exchange_rate_data`. -/
def rateLargeGaps (df : List RateRow) (max_gap : ℚ) : ℤ :=
  ((df.map (·.source_item_id)).dedup.map (fun s =>
    ((df.map (·.target_item_id)).dedup.map (fun t =>
      countGaps max_gap (sortTs ((pairGroup df s t).map (·.timestamp))))).sum)).sum

/-- Embeds `DataValidationPipeline.validate_exchange_rate_data` (same
shape as the price validator, applied per (source, target) pair). -/
def validate_exchange_rate_data (rates : List RateRow) (min_rate max_rate max_gap : ℚ) :
    ValidationReport × List RateRow :=
  let df := coerceRates rates
  let total : ℤ := df.length
  let missing := (df.map rateRowNulls).sum
  let oor : ℤ := (df.filter (fun r => outOfRangeCell min_rate max_rate r.rate)).length
  let dups := dupCount [] df
  let gaps := rateLargeGaps df max_gap
  let valid := total - missing - oor - dups
  let invalid := total - valid
  ({ total_records := total
     valid_records := valid
     invalid_records := invalid
     missing_values := missing
     out_of_range := oor
     large_gaps := gaps
     duplicates := dups
     validation_passed := decide (0 < valid ∧ invalid = 0) }, df)

/-- Embeds the dict returned by `validate_data_consistency`. -/
structure ConsistencyReport where
  total_items : ℕ
  total_rate_pairs : ℕ
  missing_items : ℕ
  inconsistent_rates : ℕ
  validation_passed : Bool
deriving DecidableEq, Repr

/-- The integer members of Python's `set(column.unique())`: the
distinct non-null ids of a column.  A null cell also enters such a set
— `unique()` collapses a column's NaNs to one, and `set()` keeps that
NaN as a member equal to nothing else — so the null member of each
column is accounted separately (see `pySetCard` / `allItemsCard`). -/
def idSet (l : List (Option ℤ)) : Finset ℤ :=
  (l.filterMap id).toFinset

/-- `len(set(column.unique()))`: the distinct non-null ids plus one NaN
member when the column contains a null. -/
def pySetCard (ids : List (Option ℤ)) : ℕ :=
  (idSet ids).card + (if none ∈ ids then 1 else 0)

/-- `len(price_set | source_set | target_set)`: the NaN members of the
three per-column sets never compare equal to each other (NaN ≠ NaN and
the boxed scalars are distinct objects), so each column containing a
null contributes its own member to the union. -/
def allItemsCard (p s t : List (Option ℤ)) : ℕ :=
  (idSet p ∪ idSet s ∪ idSet t).card + (if none ∈ p then 1 else 0) +
    (if none ∈ s then 1 else 0) + (if none ∈ t then 1 else 0)

/-- `abs(direct['rate'] * reverse['rate'] - 1.0) > 0.01` on one record
pair; a NaN rate compares false, as in pandas. -/
def badProduct (d rv : RateRow) : Bool :=
  match d.rate, rv.rate with
  | some x, some y => decide (|x * y - 1| > 1 / 100)
  | _, _ => false

/-- The inner count of the reciprocal-consistency double loop: for the
pair of unique-column values `(s, t)`, every (direct row, reverse row)
combination whose rate product strays from 1 by more than 0.01. -/
def pairViolations (rates : List RateRow) (s t : Option ℤ) : ℕ :=
  ((pairGroup rates s t).map
    (fun d => ((pairGroup rates t s).filter (fun rv => badProduct d rv)).length)).sum

/-- `inconsistent_rates` of `validate_data_consistency`: the double loop
over `unique()` source and target ids. -/
def inconsistentRates (rates : List RateRow) : ℕ :=
  ((rates.map (·.source_item_id)).dedup.map (fun s =>
    ((rates.map (·.target_item_id)).dedup.map (fun t =>
      pairViolations rates s t)).sum)).sum

/-- Embeds `DataValidationPipeline.validate_data_consistency`.  The
inputs are passed through unchanged (this validator performs no
timestamp coercion). -/
def validate_data_consistency (prices : List PriceRow) (rates : List RateRow) :
    ConsistencyReport × List PriceRow × List RateRow :=
  ({ total_items := (prices.map (·.item_id)).dedup.length
     total_rate_pairs :=
       ((rates.filterMap (fun r =>
         match r.source_item_id, r.target_item_id with
         | some a, some b => some (a, b)
         | _, _ => none)).dedup).length
     missing_items :=
       allItemsCard (prices.map (·.item_id)) (rates.map (·.source_item_id))
           (rates.map (·.target_item_id)) -
         pySetCard (prices.map (·.item_id))
     inconsistent_rates := inconsistentRates rates
     validation_passed :=
       decide (allItemsCard (prices.map (·.item_id)) (rates.map (·.source_item_id))
             (rates.map (·.target_item_id)) -
           pySetCard (prices.map (·.item_id)) = 0 ∧ inconsistentRates rates = 0) },
   prices, rates)

/-- Embeds the dict returned by `validate_data_completeness`. -/
structure CompletenessReport where
  total_periods : ℕ
  missing_price_periods : ℕ
  missing_rate_periods : ℕ
  validation_passed : Bool
deriving DecidableEq, Repr

/-- `pd.date_range(start, end, freq)`: the arithmetic progression of
instants from `start` stepping by `freq` while not exceeding `end`
(empty when the window is empty; a non-positive frequency is outside
the modelled input space). -/
def dateRange (start_date end_date freq : ℚ) : List ℚ :=
  if freq ≤ 0 ∨ end_date < start_date then []
  else (List.range ((⌊(end_date - start_date) / freq⌋).toNat + 1)).map
    (fun i => start_date + i * freq)

/-- `len(set(date_range) - observed)` for one item or pair: the expected
instants with no observed datetime cell equal to them. -/
def missingPeriods (expected : List ℚ) (observed : List TsCell) : ℕ :=
  (expected.filter (fun d => decide (TsCell.dt d ∉ observed))).length

/-- Embeds `DataValidationPipeline.validate_data_completeness`.  Both
frames have their timestamp column coerced in place and are returned as
left after the call. -/
def validate_data_completeness (prices : List PriceRow) (rates : List RateRow)
    (start_date end_date : ℚ) (freq : ℚ) :
    CompletenessReport × List PriceRow × List RateRow :=
  let dfp := coercePrices prices
  let dfr := coerceRates rates
  let expected := dateRange start_date end_date freq
  let missing_price :=
    ((dfp.map (·.item_id)).dedup.map
      (fun v => missingPeriods expected ((itemGroup dfp v).map (·.timestamp)))).sum
  let missing_rate :=
    ((dfr.map (·.source_item_id)).dedup.map (fun s =>
      ((dfr.map (·.target_item_id)).dedup.map (fun t =>
        missingPeriods expected ((pairGroup dfr s t).map (·.timestamp)))).sum)).sum
  ({ total_periods := expected.length
     missing_price_periods := missing_price
     missing_rate_periods := missing_rate
     validation_passed := decide (missing_price = 0 ∧ missing_rate = 0) },
   dfp, dfr)

/-! ### src/models/graph_structure.py -/

/-- A node of the value graph: item nodes are keyed by the integer item
id; the base node is the string literal `'SVU'` used by `build_graph`
(a distinct hashable, never equal to an id). -/
inductive Node
  | base
  | item (id : ℤ)
deriving DecidableEq, Repr

/-- The attribute dict attached to every edge by `build_graph`. -/
structure EdgeData where
  weight : ℚ
  timestamp : ℚ
  source : String
  confidence : ℚ
  type : String
deriving DecidableEq, Repr

/-- The `nx.DiGraph` held by `ValueGraph`: a simple directed graph.
Edges is an association list keyed by the ordered node pair; the
`add_edge` embedding below keeps at most one entry per pair, as a
DiGraph does.  (The per-item name/symbol/type node attributes are not
modelled; no claim mentions them.) -/
structure ValueGraph where
  nodes : List Node
  edges : List (Node × Node × EdgeData)
deriving DecidableEq, Repr

/-- `add_node` (and the implicit node creation of `add_edge`): a no-op
when the node is already present. -/
def addNode (g : ValueGraph) (n : Node) : ValueGraph :=
  if n ∈ g.nodes then g else { g with nodes := g.nodes ++ [n] }

/-- Replaces the data of the edge keyed `(u, v)` when present, else
appends a fresh edge — exactly `DiGraph.add_edge` on the edge set. -/
def setEdge (u v : Node) (d : EdgeData) : List (Node × Node × EdgeData) →
    List (Node × Node × EdgeData)
  | [] => [(u, v, d)]
  | e :: es => if e.1 = u ∧ e.2.1 = v then (u, v, d) :: es else e :: setEdge u v d es

/-- `self.graph.add_edge(u, v, **data)`. -/
def addEdge (g : ValueGraph) (u v : Node) (d : EdgeData) : ValueGraph :=
  let g := addNode (addNode g u) v
  { g with edges := setEdge u v d g.edges }

/-- An `Item` row as queried by `build_graph` (name/symbol/type are
attached as node attributes, which no claim touches). -/
structure Item where
  id : ℤ
deriving DecidableEq, Repr

/-- A `Price` row as queried by `build_graph`. -/
structure PriceRec where
  item_id : ℤ
  price : ℚ
  timestamp : ℚ
  source : String
  confidence : ℚ
deriving DecidableEq, Repr

/-- An `ExchangeRate` row as queried by `build_graph`. -/
structure RateRec where
  source_item_id : ℤ
  target_item_id : ℤ
  rate : ℚ
  timestamp : ℚ
  source : String
  confidence : ℚ
deriving DecidableEq, Repr

/-- The DB filter applied to prices: `timestamp.between(start, end)`
(inclusive) and `confidence >= min_confidence`. -/
def priceQualifies (start_date end_date min_confidence : ℚ) (p : PriceRec) : Bool :=
  decide (start_date ≤ p.timestamp ∧ p.timestamp ≤ end_date ∧ min_confidence ≤ p.confidence)

/-- The DB filter applied to rates. -/
def rateQualifies (start_date end_date min_confidence : ℚ) (r : RateRec) : Bool :=
  decide (start_date ≤ r.timestamp ∧ r.timestamp ≤ end_date ∧ min_confidence ≤ r.confidence)

/-- The edge dict built for a price edge (`'SVU' → item_id`). -/
def priceEdgeData (p : PriceRec) : EdgeData :=
  { weight := p.price, timestamp := p.timestamp, source := p.source,
    confidence := p.confidence, type := "price" }

/-- The edge dict built for a rate edge (`source → target`). -/
def rateEdgeData (r : RateRec) : EdgeData :=
  { weight := r.rate, timestamp := r.timestamp, source := r.source,
    confidence := r.confidence, type := "exchange_rate" }

/-- Embeds `ValueGraph.build_graph`: clear, add one node per item, add
one `add_edge` call per qualifying price (base → item) then per
qualifying rate (source → target). -/
def build_graph (items : List Item) (prices : List PriceRec) (rates : List RateRec)
    (start_date end_date min_confidence : ℚ) : ValueGraph :=
  let g : ValueGraph := { nodes := [], edges := [] }
  let g := items.foldl (fun g it => addNode g (Node.item it.id)) g
  let g := (prices.filter (priceQualifies start_date end_date min_confidence)).foldl
    (fun g p => addEdge g Node.base (Node.item p.item_id) (priceEdgeData p)) g
  (rates.filter (rateQualifies start_date end_date min_confidence)).foldl
    (fun g r => addEdge g (Node.item r.source_item_id) (Node.item r.target_item_id)
      (rateEdgeData r)) g

/-- `self.graph.in_edges(node, data=True)`. -/
def inEdges (g : ValueGraph) (n : Node) : List (Node × Node × EdgeData) :=
  g.edges.filter (fun e => decide (e.2.1 = n))

/-- `self.graph.out_edges(node, data=True)`. -/
def outEdges (g : ValueGraph) (n : Node) : List (Node × Node × EdgeData) :=
  g.edges.filter (fun e => decide (e.1 = n))

/-- `in_degree` attribute. -/
def inDegree (g : ValueGraph) (n : Node) : ℕ :=
  (inEdges g n).length

/-- `out_degree` attribute. -/
def outDegree (g : ValueGraph) (n : Node) : ℕ :=
  (outEdges g n).length

/-- Edge-dict lookup `G[u][v]`. -/
def findEdge (g : ValueGraph) (u v : Node) : Option EdgeData :=
  (g.edges.find? (fun e => decide (e.1 = u ∧ e.2.1 = v))).map (·.2.2)

/-- Whether the directed edge `u → v` is present. -/
def hasEdge (g : ValueGraph) (u v : Node) : Bool :=
  (findEdge g u v).isSome

/-- The successor list of a node (adjacency iteration order). -/
def successors (g : ValueGraph) (u : Node) : List Node :=
  (g.edges.filter (fun e => decide (e.1 = u))).map (·.2.1)

/-- The routing cost networkx reads off an edge dict for the weight
attribute named `w`: the numeric attributes by name, and the networkx
default `1` for a name the dict lacks.  (The two string attributes are
not usable as weights; they are outside the modelled input space.) -/
def edgeCost (w : String) (d : EdgeData) : ℚ :=
  if w = "confidence" then d.confidence
  else if w = "weight" then d.weight
  else if w = "timestamp" then d.timestamp
  else 1

/-- `sum of edgeCost over the consecutive pairs of a node list` — the
total routing cost of a path (an absent edge contributes 0; every path
the theorems quantify over has all its edges present). -/
def pathCost (g : ValueGraph) (w : String) : List Node → ℚ
  | [] => 0
  | [_] => 0
  | a :: b :: rest =>
      (match findEdge g a b with
       | some d => edgeCost w d
       | none => 0) + pathCost g w (b :: rest)

/-- All duplicate-free edge paths from `s` to `t` avoiding `visited`,
produced with `fuel` as the recursion bound. -/
def simplePathsAux (g : ValueGraph) (t : Node) :
    ℕ → Node → List Node → List (List Node)
  | 0, _, _ => []
  | fuel + 1, s, visited =>
      if s = t then [[s]]
      else
        ((successors g s).filter (fun v => decide (v ∉ s :: visited))).flatMap
          (fun v => (simplePathsAux g t fuel v (s :: visited)).map (fun p => s :: p))

/-- All duplicate-free paths from `s` to `t`; the fuel bound exceeds any
duplicate-free path length through the graph's nodes. -/
def simplePaths (g : ValueGraph) (s t : Node) : List (List Node) :=
  simplePathsAux g t (g.nodes.length + 1) s []

/-- One comparison step of the minimum-cost selection. -/
def minStep (cost : List Node → ℚ) (acc : Option (List Node)) (p : List Node) :
    Option (List Node) :=
  match acc with
  | none => some p
  | some b => if cost p < cost b then some p else some b

/-- The first list attaining the minimum cost (any minimum-cost path is
a faithful model of the Dijkstra result; ties are unspecified there). -/
def minBy (cost : List Node → ℚ) (l : List (List Node)) : Option (List Node) :=
  l.foldl (minStep cost) none

/-- Embeds `ValueGraph.get_shortest_path`: `nx.shortest_path` with the
named weight attribute is Dijkstra, returning a path of minimum total
cost (modelled as a minimum over the duplicate-free paths, which for
the nonnegative weights Dijkstra requires is the same minimum); the
`except nx.NetworkXNoPath` handler turns the no-path failure into the
empty list. -/
def get_shortest_path (g : ValueGraph) (source_id target_id : Node)
    (weight : String) : List Node :=
  (minBy (pathCost g weight) (simplePaths g source_id target_id)).getD []

/-- `get_shortest_path` called without an explicit weight argument: the
default of the `weight` parameter is the string `'confidence'`. -/
def get_shortest_path_default (g : ValueGraph) (source_id target_id : Node) :
    List Node :=
  get_shortest_path g source_id target_id "confidence"

/-- `a :: l` chains through present edges. -/
def chainB (g : ValueGraph) : List Node → Bool
  | [] => true
  | [_] => true
  | a :: b :: rest => hasEdge g a b && chainB g (b :: rest)

/-- A duplicate-free directed path from `s` to `t` through the graph:
nonempty, endpoints as stated, every consecutive pair an edge, no node
repeated, all nodes present in the graph. -/
def IsSimplePath (g : ValueGraph) (s t : Node) (p : List Node) : Prop :=
  p ≠ [] ∧ p.head? = some s ∧ p.getLast? = some t ∧ chainB g p = true ∧
    p.Nodup ∧ ∀ x ∈ p, x ∈ g.nodes

/-- Well-formedness of the edge list: endpoints are nodes of the graph
(every graph `build_graph` produces satisfies this). -/
def WF (g : ValueGraph) : Prop :=
  ∀ e ∈ g.edges, e.1 ∈ g.nodes ∧ e.2.1 ∈ g.nodes

instance (g : ValueGraph) : Decidable (WF g) := by
  unfold WF; infer_instance

/-! ### Concrete instances used by counterexamples and witnesses -/

/-- First-ingested of two equal-confidence observations of the same
(timestamp, item). -/
def obsFirst : DataPoint :=
  { timestamp := 0, item_id := 1, value := 1, source := "alpha", confidence := 9 / 10,
    type := "price" }

/-- Second-ingested of two equal-confidence observations of the same
(timestamp, item). -/
def obsSecond : DataPoint :=
  { timestamp := 0, item_id := 1, value := 2, source := "beta", confidence := 9 / 10,
    type := "price" }

/-- A rate observation 1 → 2 (`item_id` is set to the source item id,
as `ingest_data` does for exchange-rate rows). -/
def rateObsTo2 : DataPoint :=
  { timestamp := 0, item_id := 1, value := 3 / 2, source := "alpha", confidence := 9 / 10,
    type := "exchange_rate", source_item_id := some 1, target_item_id := some 2 }

/-- A rate observation 1 → 3, same timestamp and source item as
`rateObsTo2` but a different target item. -/
def rateObsTo3 : DataPoint :=
  { timestamp := 0, item_id := 1, value := 2, source := "beta", confidence := 9 / 10,
    type := "exchange_rate", source_item_id := some 1, target_item_id := some 3 }

/-- A one-row price frame whose timestamp is not yet a datetime. -/
def rawTimestampFrame : List PriceRow :=
  [{ timestamp := .raw 0, item_id := some 1, price := some 1 }]

/-- A price record for item 1 with weight 5. -/
def priceFive : PriceRec :=
  { item_id := 1, price := 5, timestamp := 0, source := "a", confidence := 1 }

/-- A second price record for the same item 1, weight 7. -/
def priceSeven : PriceRec :=
  { item_id := 1, price := 7, timestamp := 0, source := "b", confidence := 1 }

/-- Graph built from two qualifying price observations of the same
item: both `add_edge` calls target the ordered pair (base, item 1). -/
def gOverwrite : ValueGraph :=
  build_graph [⟨1⟩] [priceFive, priceSeven] [] 0 1 (7 / 10)

/-- Graph with two item nodes and no edges at all. -/
def gNoEdges : ValueGraph :=
  build_graph [⟨1⟩, ⟨2⟩] [] [] 0 1 (7 / 10)

/-- Direct rate edge 1 → 3 with high confidence 0.9. -/
def rateHighDirect : RateRec :=
  { source_item_id := 1, target_item_id := 3, rate := 2, timestamp := 0,
    source := "x", confidence := 9 / 10 }

/-- Detour rate edge 1 → 2 with low confidence 0.4. -/
def rateLowHop1 : RateRec :=
  { source_item_id := 1, target_item_id := 2, rate := 2, timestamp := 0,
    source := "x", confidence := 2 / 5 }

/-- Detour rate edge 2 → 3 with low confidence 0.4. -/
def rateLowHop2 : RateRec :=
  { source_item_id := 2, target_item_id := 3, rate := 2, timestamp := 0,
    source := "x", confidence := 2 / 5 }

/-- Graph with a high-confidence direct edge 1 → 3 and a low-confidence
two-hop detour 1 → 2 → 3. -/
def gDetour : ValueGraph :=
  build_graph [⟨1⟩, ⟨2⟩, ⟨3⟩] [] [rateHighDirect, rateLowHop1, rateLowHop2] 0 1 0

/-- A one-row price frame whose only item id is 1. -/
def priceItemOne : List PriceRow :=
  [{ timestamp := .dt 0, item_id := some 1, price := some 1 }]

/-- A rate row whose source id is null while its target id (1) is
priced. -/
def nullSourceRate : RateRow :=
  { timestamp := .dt 0, source_item_id := none, target_item_id := some 1, rate := some 1 }

/-- A null-free rate row 1 → 2 (item 2 is not priced). -/
def cleanRate : RateRow :=
  { timestamp := .dt 0, source_item_id := some 1, target_item_id := some 2, rate := some 1 }

/-! ## Theorems -/

/-! ### Helper lemmas on the merge pipeline -/

lemma insertKey_perm (k : ℚ × ℤ) (l : List (ℚ × ℤ)) : (insertKey k l).Perm (k :: l) := by
  induction l with
  | nil => simp [insertKey]
  | cons a t ih =>
      by_cases h : keyLE k a = true
      · simp [insertKey, h]
      · rw [show insertKey k (a :: t) = a :: insertKey k t by simp [insertKey, h]]
        exact (ih.cons a).trans (List.Perm.swap k a t)

lemma sortKeys_perm (l : List (ℚ × ℤ)) : (sortKeys l).Perm l := by
  induction l with
  | nil => simp [sortKeys]
  | cons k t ih =>
      have hk : sortKeys (k :: t) = insertKey k (sortKeys t) := rfl
      rw [hk]
      exact (insertKey_perm k (sortKeys t)).trans (ih.cons k)

lemma groupKeys_nodup (buffer : List DataPoint) : (groupKeys buffer).Nodup :=
  ((sortKeys_perm _).nodup_iff).mpr (buffer.map mergeKey).nodup_dedup

lemma applyPriority_subset {ps : List String} {l : List DataPoint} {x : DataPoint}
    (h : x ∈ applyPriority ps l) : x ∈ l := by
  unfold applyPriority at h
  split at h
  · exact h
  · split at h
    · exact h
    · exact List.mem_of_mem_filter h

lemma mem_candidates_key {buffer : List DataPoint} {ps : List String} {mc : ℚ}
    {k : ℚ × ℤ} {m : DataPoint} (h : m ∈ candidates buffer ps mc k) : mergeKey m = k := by
  have h1 : m ∈ confFilter mc (groupRows buffer k) := applyPriority_subset h
  have h2 : m ∈ groupRows buffer k := List.mem_of_mem_filter h1
  have h3 := List.of_mem_filter h2
  exact of_decide_eq_true h3

lemma pickBetter_go {l : List DataPoint} :
    ∀ {b m : DataPoint}, l.foldl pickBetter (some b) = some m →
      ∃ l1 l2, b :: l = l1 ++ m :: l2 ∧ (∀ x ∈ l1, x.confidence < m.confidence) ∧
        ∀ x ∈ l2, x.confidence ≤ m.confidence := by
  induction l with
  | nil =>
      intro b m h
      simp only [List.foldl, Option.some.injEq] at h
      exact ⟨[], [], by simp [h], by simp, by simp⟩
  | cons x xs ih =>
      intro b m h
      simp only [List.foldl] at h
      by_cases hbx : b.confidence < x.confidence
      · rw [show pickBetter (some b) x = some x by simp [pickBetter, hbx]] at h
        obtain ⟨l1, l2, hdec, h1, h2⟩ := ih h
        have hall : ∀ y ∈ x :: xs, y.confidence ≤ m.confidence := by
          intro y hy
          rw [hdec] at hy
          rcases List.mem_append.mp hy with hy | hy
          · exact le_of_lt (h1 y hy)
          · rcases List.mem_cons.mp hy with hy | hy
            · rw [hy]
            · exact h2 y hy
        refine ⟨b :: l1, l2, ?_, ?_, h2⟩
        · rw [List.cons_append, ← hdec]
        · intro y hy
          rcases List.mem_cons.mp hy with hy | hy
          · rw [hy]
            exact lt_of_lt_of_le hbx (hall x (List.mem_cons_self x xs))
          · exact h1 y hy
      · rw [show pickBetter (some b) x = some b by simp [pickBetter, hbx]] at h
        obtain ⟨l1, l2, hdec, h1, h2⟩ := ih h
        cases l1 with
        | nil =>
            simp only [List.nil_append, List.cons.injEq] at hdec
            refine ⟨[], x :: xs, by simp [hdec.1], by simp, ?_⟩
            intro y hy
            rcases List.mem_cons.mp hy with hy | hy
            · rw [hy, ← hdec.1]
              exact le_of_not_lt hbx
            · exact h2 y (hdec.2 ▸ hy)
        | cons c l1' =>
            simp only [List.cons_append, List.cons.injEq] at hdec
            have hbm : b.confidence < m.confidence := by
              rw [hdec.1]
              exact h1 c (List.mem_cons_self c l1')
            refine ⟨b :: x :: l1', l2, ?_, ?_, h2⟩
            · rw [List.cons_append, List.cons_append, hdec.2]
            · intro y hy
              rcases List.mem_cons.mp hy with hy | hy
              · rw [hy]; exact hbm
              · rcases List.mem_cons.mp hy with hy | hy
                · rw [hy]
                  exact lt_of_le_of_lt (le_of_not_lt hbx) hbm
                · exact h1 y (List.mem_cons_of_mem c hy)

lemma firstMax_spec {l : List DataPoint} {m : DataPoint} (h : firstMax l = some m) :
    ∃ l1 l2, l = l1 ++ m :: l2 ∧ (∀ x ∈ l1, x.confidence < m.confidence) ∧
      ∀ x ∈ l2, x.confidence ≤ m.confidence := by
  cases l with
  | nil => simp [firstMax] at h
  | cons x xs =>
      have h' : xs.foldl pickBetter (some x) = some m := h
      exact pickBetter_go h'

lemma pairwise_keys_filterMap {κ β : Type} [DecidableEq κ] (key : β → κ)
    (f : κ → Option β) (hf : ∀ k m, f k = some m → key m = k) :
    ∀ keys : List κ, keys.Nodup →
      (keys.filterMap f).Pairwise (fun a b => key a ≠ key b) := by
  intro keys
  induction keys with
  | nil => intro _; simp
  | cons k ks ih =>
      intro hnd
      rw [List.filterMap_cons]
      rcases List.nodup_cons.mp hnd with ⟨hk, hks⟩
      cases hfk : f k with
      | none => exact ih hks
      | some m =>
          refine List.Pairwise.cons ?_ (ih hks)
          intro b hb hkey
          rcases List.mem_filterMap.mp hb with ⟨k', hk', hfk'⟩
          rw [hf k m hfk, hf k' b hfk'] at hkey
          rw [hkey] at hk
          exact hk hk'

/-! ### Claims C2, C3, C9 — merge behaviour -/

/-- Claim C2, amended (the code breaks confidence ties by the FIRST
ingested member, `idxmax` returning the first occurrence of the
maximum): every merged row is a member of its group's candidate set
with maximal confidence, and every candidate strictly before it in
ingestion order has strictly smaller confidence. -/
theorem merge_picks_first_max (buffer : List DataPoint) (ps : List String) (mc : ℚ)
    (m : DataPoint) (h : m ∈ merge_data buffer ps mc) :
    ∃ k ∈ groupKeys buffer, mergeKey m = k ∧ m ∈ candidates buffer ps mc k ∧
      (∀ x ∈ candidates buffer ps mc k, x.confidence ≤ m.confidence) ∧
      ∃ l1 l2, candidates buffer ps mc k = l1 ++ m :: l2 ∧
        ∀ x ∈ l1, x.confidence < m.confidence := by
  unfold merge_data at h
  split at h
  · simp at h
  · rcases List.mem_filterMap.mp h with ⟨k, hk, hsel⟩
    have hspec := firstMax_spec (l := candidates buffer ps mc k) hsel
    obtain ⟨l1, l2, hdec, h1, h2⟩ := hspec
    have hmem : m ∈ candidates buffer ps mc k := by
      rw [hdec]
      exact List.mem_append_right _ (List.mem_cons_self m l2)
    refine ⟨k, hk, mem_candidates_key hmem, hmem, ?_, l1, l2, hdec, h1⟩
    intro x hx
    rw [hdec] at hx
    rcases List.mem_append.mp hx with hx | hx
    · exact le_of_lt (h1 x hx)
    · rcases List.mem_cons.mp hx with hx | hx
      · rw [hx]
      · exact h2 x hx

/-- Claim C2, counterexample: two same-key observations tie at the
maximum confidence and the FIRST-ingested one is returned, not the
last-ingested one the claim demands. -/
theorem merge_tie_returns_first_counterexample :
    mergeKey obsFirst = mergeKey obsSecond ∧
      obsFirst.confidence = obsSecond.confidence ∧
      (7 : ℚ) / 10 ≤ obsFirst.confidence ∧
      obsFirst ≠ obsSecond ∧
      merge_data [obsFirst, obsSecond] [] (7 / 10) = [obsFirst] := by
  refine ⟨rfl, rfl, by with_unfolding_all decide, by with_unfolding_all decide,
    by with_unfolding_all decide⟩

/-- Claim C2, witness instantiating the amended theorem on the
two-observation tie buffer. -/
theorem merge_picks_first_max_witness :
    ∃ k ∈ groupKeys [obsFirst, obsSecond],
      mergeKey obsFirst = k ∧ obsFirst ∈ candidates [obsFirst, obsSecond] [] (7 / 10) k ∧
      (∀ x ∈ candidates [obsFirst, obsSecond] [] (7 / 10) k,
        x.confidence ≤ obsFirst.confidence) ∧
      ∃ l1 l2, candidates [obsFirst, obsSecond] [] (7 / 10) k = l1 ++ obsFirst :: l2 ∧
        ∀ x ∈ l1, x.confidence < obsFirst.confidence :=
  merge_picks_first_max [obsFirst, obsSecond] [] (7 / 10) obsFirst
    (by with_unfolding_all decide)

/-- Claim C3, amended (the code groups by (timestamp, item_id) only,
where item_id is the subject/source item): the merged sequence carries
at most one row per (timestamp, item_id) key — pairwise distinct keys. -/
theorem merge_unique_per_timestamp_item (buffer : List DataPoint) (ps : List String)
    (mc : ℚ) :
    (merge_data buffer ps mc).Pairwise (fun a b => mergeKey a ≠ mergeKey b) := by
  unfold merge_data
  split
  · simp
  · exact pairwise_keys_filterMap mergeKey (selectBest buffer ps mc)
      (fun k m h => mem_candidates_key (by
        rcases firstMax_spec (l := candidates buffer ps mc k) h with ⟨l1, l2, hdec, _, _⟩
        rw [hdec]
        exact List.mem_append_right _ (List.mem_cons_self m l2)))
      (groupKeys buffer) (groupKeys_nodup buffer)

/-- Claim C3, counterexample: two observations with the same timestamp
and source item but DIFFERENT target items (and both above the
confidence threshold) are collapsed into a single merged row, because
the groupby key ignores the target item and the kind. -/
theorem merge_collapses_targets_counterexample :
    rateObsTo2.timestamp = rateObsTo3.timestamp ∧
      rateObsTo2.source_item_id = rateObsTo3.source_item_id ∧
      rateObsTo2.target_item_id ≠ rateObsTo3.target_item_id ∧
      (7 : ℚ) / 10 ≤ rateObsTo2.confidence ∧
      (7 : ℚ) / 10 ≤ rateObsTo3.confidence ∧
      merge_data [rateObsTo2, rateObsTo3] [] (7 / 10) = [rateObsTo2] := by
  refine ⟨rfl, rfl, by with_unfolding_all decide, by with_unfolding_all decide,
    by with_unfolding_all decide, by with_unfolding_all decide⟩

/-- Claim C3, witness instantiating the amended theorem on the
two-rate buffer. -/
theorem merge_unique_per_timestamp_item_witness :
    (merge_data [rateObsTo2, rateObsTo3] [] (7 / 10)).Pairwise
      (fun a b => mergeKey a ≠ mergeKey b) :=
  merge_unique_per_timestamp_item [rateObsTo2, rateObsTo3] [] (7 / 10)

/-- Claim C9 (confirmed): on an empty observation buffer, merge returns
the empty sequence and statistics returns the all-zero record; both are
total functions of the buffer (the internal `ValueError` of
`merge_data` is caught by its own handler), so no exception escapes. -/
theorem empty_buffer_merge_and_statistics (ps : List String) (mc : ℚ) :
    merge_data [] ps mc = [] ∧
      get_statistics [] =
        { total_points := 0, price_points := 0, rate_points := 0,
          sources := fun _ => 0,
          confidence_stats := { mean := 0, min := 0, max := 0 } } :=
  ⟨rfl, rfl⟩

/-! ### Claims C4, C8 — price/rate validators -/

/-- Claim C4 (confirmed): the price-validation report satisfies
`valid = total - missing - out_of_range - duplicates`, passes iff
`valid > 0` and `invalid = 0`, and the `max_gap` parameter (hence the
`large_gaps` count) has no influence on `valid_records` or on
`validation_passed`. -/
theorem price_report_arithmetic (prices : List PriceRow) (mn mx gp : ℚ) :
    ((validate_price_data prices mn mx gp).1.valid_records =
      (validate_price_data prices mn mx gp).1.total_records -
        (validate_price_data prices mn mx gp).1.missing_values -
        (validate_price_data prices mn mx gp).1.out_of_range -
        (validate_price_data prices mn mx gp).1.duplicates) ∧
    ((validate_price_data prices mn mx gp).1.validation_passed = true ↔
      0 < (validate_price_data prices mn mx gp).1.valid_records ∧
        (validate_price_data prices mn mx gp).1.invalid_records = 0) ∧
    ∀ gp' : ℚ,
      (validate_price_data prices mn mx gp').1.valid_records =
          (validate_price_data prices mn mx gp).1.valid_records ∧
        (validate_price_data prices mn mx gp').1.validation_passed =
          (validate_price_data prices mn mx gp).1.validation_passed :=
  ⟨rfl, decide_eq_true_iff, fun _ => ⟨rfl, rfl⟩⟩

lemma toDatetime_idem (c : TsCell) : toDatetime (toDatetime c) = toDatetime c := by
  cases c <;> rfl

lemma coercePrices_idem (l : List PriceRow) : coercePrices (coercePrices l) = coercePrices l := by
  induction l with
  | nil => rfl
  | cons r t ih => simp [coercePrices, toDatetime_idem] at ih ⊢

lemma coerceRates_idem (l : List RateRow) : coerceRates (coerceRates l) = coerceRates l := by
  induction l with
  | nil => rfl
  | cons r t ih => simp [coerceRates, toDatetime_idem] at ih ⊢

/-- Claim C8, amended (the price, rate and completeness validators DO
mutate the frames passed in — they coerce the timestamp column in
place; the consistency validator leaves its inputs untouched): the only
change any validator makes to its input frames is the `to_datetime`
coercion of the timestamp column, and re-validating the frames a call
leaves behind returns the very same report and frames (idempotence). -/
theorem validators_mutate_only_timestamps (prices : List PriceRow) (rates : List RateRow)
    (mn mx gp sd ed fr : ℚ) :
    (validate_price_data prices mn mx gp).2 = coercePrices prices ∧
    validate_price_data (validate_price_data prices mn mx gp).2 mn mx gp =
      validate_price_data prices mn mx gp ∧
    (validate_exchange_rate_data rates mn mx gp).2 = coerceRates rates ∧
    validate_exchange_rate_data (validate_exchange_rate_data rates mn mx gp).2 mn mx gp =
      validate_exchange_rate_data rates mn mx gp ∧
    validate_data_consistency prices rates =
      ((validate_data_consistency prices rates).1, prices, rates) ∧
    (validate_data_completeness prices rates sd ed fr).2 =
      (coercePrices prices, coerceRates rates) ∧
    validate_data_completeness (validate_data_completeness prices rates sd ed fr).2.1
        (validate_data_completeness prices rates sd ed fr).2.2 sd ed fr =
      validate_data_completeness prices rates sd ed fr := by
  refine ⟨rfl, ?_, rfl, ?_, rfl, rfl, ?_⟩
  · show validate_price_data (coercePrices prices) mn mx gp = _
    unfold validate_price_data
    rw [coercePrices_idem]
  · show validate_exchange_rate_data (coerceRates rates) mn mx gp = _
    unfold validate_exchange_rate_data
    rw [coerceRates_idem]
  · show validate_data_completeness (coercePrices prices) (coerceRates rates) sd ed fr = _
    unfold validate_data_completeness
    rw [coercePrices_idem, coerceRates_idem]

/-- Claim C8, counterexample: a frame whose timestamp is not yet a
datetime is NOT returned unchanged by the price validator — the
timestamp column has been coerced in place, so the input frame is not
bitwise unchanged after the call. -/
theorem validator_mutates_frame_counterexample :
    (validate_price_data rawTimestampFrame 0 10 7).2 ≠ rawTimestampFrame := by
  with_unfolding_all decide

/-! ### Claim C5 — consistency validator -/

lemma mem_pairGroup {rates : List RateRow} {s t : Option ℤ} {r : RateRow} :
    r ∈ pairGroup rates s t ↔
      r ∈ rates ∧ s ≠ none ∧ t ≠ none ∧ r.source_item_id = s ∧ r.target_item_id = t := by
  simp [pairGroup, List.mem_filter, and_assoc]

lemma badProduct_iff {d rv : RateRow} :
    badProduct d rv = true ↔
      ∃ x y, d.rate = some x ∧ rv.rate = some y ∧ 1 / 100 < |x * y - 1| := by
  unfold badProduct
  cases hx : d.rate with
  | none => simp [hx]
  | some x =>
      cases hy : rv.rate with
      | none => simp [hx, hy]
      | some y => simp [hx, hy]

lemma natSumMap_eq_zero {α : Type} {l : List α} {f : α → ℕ} :
    (l.map f).sum = 0 ↔ ∀ x ∈ l, f x = 0 := by
  rw [List.sum_eq_zero_iff]
  simp

lemma inconsistentRates_ne_zero (rates : List RateRow) :
    inconsistentRates rates ≠ 0 ↔
      ∃ d ∈ rates, ∃ rv ∈ rates, ∃ a b,
        d.source_item_id = some a ∧ d.target_item_id = some b ∧
        rv.source_item_id = some b ∧ rv.target_item_id = some a ∧
        badProduct d rv = true := by
  rw [Ne, not_iff_comm, not_exists]
  unfold inconsistentRates pairViolations
  rw [natSumMap_eq_zero]
  constructor
  · intro hno s hs
    rw [natSumMap_eq_zero]
    intro t ht
    rw [natSumMap_eq_zero]
    intro d hd
    rw [List.length_eq_zero, List.filter_eq_nil_iff]
    intro rv hrv hbad
    rcases mem_pairGroup.mp hd with ⟨hdr, hsne, htne, hds, hdt⟩
    rcases mem_pairGroup.mp hrv with ⟨hrvr, _, _, hrvs, hrvt⟩
    rcases Option.ne_none_iff_exists'.mp hsne with ⟨a, ha⟩
    rcases Option.ne_none_iff_exists'.mp htne with ⟨b, hb⟩
    exact hno d ⟨hdr, rv, hrvr, a, b, by rw [hds, ha], by rw [hdt, hb],
      by rw [hrvs, hb], by rw [hrvt, ha], hbad⟩
  · intro hall d ⟨hdr, rv, hrvr, a, b, hds, hdt, hrvs, hrvt, hbad⟩
    have hs : (some a : Option ℤ) ∈ (rates.map (·.source_item_id)).dedup :=
      List.mem_dedup.mpr (by
        rcases List.mem_map.mpr ⟨d, hdr, hds⟩ with h
        exact h)
    have ht : (some b : Option ℤ) ∈ (rates.map (·.target_item_id)).dedup :=
      List.mem_dedup.mpr (List.mem_map.mpr ⟨d, hdr, hdt⟩)
    have h1 := (natSumMap_eq_zero.mp (hall (some a) hs)) (some b) ht
    have hdg : d ∈ pairGroup rates (some a) (some b) :=
      mem_pairGroup.mpr ⟨hdr, by simp, by simp, hds, hdt⟩
    have h2 := (natSumMap_eq_zero.mp h1) d hdg
    rw [List.length_eq_zero, List.filter_eq_nil_iff] at h2
    have hrvg : rv ∈ pairGroup rates (some b) (some a) :=
      mem_pairGroup.mpr ⟨hrvr, by simp, by simp, hrvs, hrvt⟩
    exact h2 rv hrvg hbad

lemma card_union_sub (A D : Finset ℤ) : (A ∪ D).card - A.card = (D \ A).card := by
  have h : (A ∪ D) \ A = D \ A := by
    ext x
    simp only [Finset.mem_sdiff, Finset.mem_union]
    tauto
  rw [← h, Finset.card_sdiff Finset.subset_union_left]

/-- Claim C5, amended (the consistency check and the pass condition
are as claimed, but `missing_items` counts MORE than the items that
appear in rates and never in prices: a null id cell in either rate
column enters the Python sets as a NaN member equal to nothing else, so
each rate column containing a null inflates the count by one and can
fail validation on a batch with no actually-missing item; null price
ids cancel between the union and the price set): inconsistency is
flagged exactly when a direct rate A→B and its inverse B→A both appear
with a product off 1.0 by more than 0.01; `missing_items` equals the
number of items appearing in rates but never in prices plus one for
each rate id column containing a null — hence exactly the
items-in-rates-never-in-prices count on batches whose rate ids are
null-free — and validation passes iff both counts are zero. -/
theorem consistency_report_spec (prices : List PriceRow) (rates : List RateRow) :
    ((validate_data_consistency prices rates).1.inconsistent_rates ≠ 0 ↔
      ∃ d ∈ rates, ∃ rv ∈ rates, ∃ a b x y,
        d.source_item_id = some a ∧ d.target_item_id = some b ∧ d.rate = some x ∧
        rv.source_item_id = some b ∧ rv.target_item_id = some a ∧ rv.rate = some y ∧
        1 / 100 < |x * y - 1|) ∧
    ((validate_data_consistency prices rates).1.missing_items =
      ((idSet (rates.map (·.source_item_id)) ∪ idSet (rates.map (·.target_item_id))) \
          idSet (prices.map (·.item_id))).card +
        (if none ∈ rates.map (·.source_item_id) then 1 else 0) +
        (if none ∈ rates.map (·.target_item_id) then 1 else 0)) ∧
    (none ∉ rates.map (·.source_item_id) → none ∉ rates.map (·.target_item_id) →
      (validate_data_consistency prices rates).1.missing_items =
        ((idSet (rates.map (·.source_item_id)) ∪ idSet (rates.map (·.target_item_id))) \
          idSet (prices.map (·.item_id))).card) ∧
    ((validate_data_consistency prices rates).1.validation_passed = true ↔
      (validate_data_consistency prices rates).1.missing_items = 0 ∧
      (validate_data_consistency prices rates).1.inconsistent_rates = 0) := by
  have hB : (validate_data_consistency prices rates).1.missing_items =
      ((idSet (rates.map (·.source_item_id)) ∪ idSet (rates.map (·.target_item_id))) \
          idSet (prices.map (·.item_id))).card +
        (if none ∈ rates.map (·.source_item_id) then 1 else 0) +
        (if none ∈ rates.map (·.target_item_id) then 1 else 0) := by
    show allItemsCard (prices.map (·.item_id)) (rates.map (·.source_item_id))
        (rates.map (·.target_item_id)) - pySetCard (prices.map (·.item_id)) = _
    have h1 : (idSet (prices.map (·.item_id))).card ≤
        (idSet (prices.map (·.item_id)) ∪ idSet (rates.map (·.source_item_id)) ∪
          idSet (rates.map (·.target_item_id))).card :=
      Finset.card_le_card (Finset.subset_union_left.trans Finset.subset_union_left)
    have h2 : (idSet (prices.map (·.item_id)) ∪ idSet (rates.map (·.source_item_id)) ∪
          idSet (rates.map (·.target_item_id))).card -
        (idSet (prices.map (·.item_id))).card =
        ((idSet (rates.map (·.source_item_id)) ∪ idSet (rates.map (·.target_item_id))) \
          idSet (prices.map (·.item_id))).card := by
      rw [Finset.union_assoc]
      exact card_union_sub _ _
    simp only [allItemsCard, pySetCard]
    split_ifs <;> omega
  refine ⟨?_, hB, fun hs ht => ?_, decide_eq_true_iff⟩
  · rw [show (validate_data_consistency prices rates).1.inconsistent_rates =
        inconsistentRates rates from rfl, inconsistentRates_ne_zero]
    constructor
    · rintro ⟨d, hd, rv, hrv, a, b, h1, h2, h3, h4, hbad⟩
      rcases badProduct_iff.mp hbad with ⟨x, y, hx, hy, hlt⟩
      exact ⟨d, hd, rv, hrv, a, b, x, y, h1, h2, hx, h3, h4, hy, hlt⟩
    · rintro ⟨d, hd, rv, hrv, a, b, x, y, h1, h2, hx, h3, h4, hy, hlt⟩
      exact ⟨d, hd, rv, hrv, a, b, h1, h2, h3, h4, badProduct_iff.mpr ⟨x, y, hx, hy, hlt⟩⟩
  · rw [hB, if_neg hs, if_neg ht]
    omega

/-- Claim C5, counterexample: a batch with one rate row whose source id
is null and whose target id IS priced.  No item appears in the rates
without appearing in the prices, yet the code reports
`missing_items = 1` (the NaN set member) and fails validation even
though the inconsistent-rate count is also zero — refuting the claimed
characterization of `missing_items` and of the pass condition. -/
theorem consistency_null_id_counterexample :
    ((idSet ([nullSourceRate].map (·.source_item_id)) ∪
        idSet ([nullSourceRate].map (·.target_item_id))) \
      idSet (priceItemOne.map (·.item_id))).card = 0 ∧
    (validate_data_consistency priceItemOne [nullSourceRate]).1.missing_items = 1 ∧
    (validate_data_consistency priceItemOne [nullSourceRate]).1.inconsistent_rates = 0 ∧
    (validate_data_consistency priceItemOne [nullSourceRate]).1.validation_passed = false := by
  with_unfolding_all decide

/-- Claim C5, witness instantiating the amended theorem on a null-free
batch, where `missing_items` is exactly the count of items appearing in
the rates but never in the prices. -/
theorem consistency_report_spec_witness :
    (validate_data_consistency priceItemOne [cleanRate]).1.missing_items =
      ((idSet ([cleanRate].map (·.source_item_id)) ∪
          idSet ([cleanRate].map (·.target_item_id))) \
        idSet (priceItemOne.map (·.item_id))).card :=
  (consistency_report_spec priceItemOne [cleanRate]).2.2.1
    (by with_unfolding_all decide) (by with_unfolding_all decide)

/-! ### Claim C6 — node volatility -/

lemma mem_setEdge_self (u v : Node) (d : EdgeData) :
    ∀ es : List (Node × Node × EdgeData), (u, v, d) ∈ setEdge u v d es := by
  intro es
  induction es with
  | nil => simp [setEdge]
  | cons e es ih =>
      unfold setEdge
      split
      · exact List.mem_cons_self _ _
      · exact List.mem_cons_of_mem e ih

lemma mem_setEdge_of_mem {u v : Node} {d : EdgeData} {e : Node × Node × EdgeData}
    (hk : ¬(e.1 = u ∧ e.2.1 = v)) :
    ∀ {es : List (Node × Node × EdgeData)}, e ∈ es → e ∈ setEdge u v d es := by
  intro es h
  induction es with
  | nil => simp at h
  | cons f es ih =>
      unfold setEdge
      rcases List.mem_cons.mp h with h | h
      · split
        · rename_i hf
          exact absurd (by rw [h]; exact hf) hk
        · exact List.mem_cons.mpr (Or.inl h)
      · split
        · exact List.mem_cons_of_mem _ h
        · exact List.mem_cons_of_mem f (ih h)

lemma hasEdge_iff {g : ValueGraph} {u v : Node} :
    hasEdge g u v = true ↔ ∃ d, (u, v, d) ∈ g.edges := by
  unfold hasEdge findEdge
  rw [Option.isSome_map']
  rw [List.find?_isSome]
  constructor
  · rintro ⟨e, he, hp⟩
    rcases of_decide_eq_true hp with ⟨h1, h2⟩
    exact ⟨e.2.2, by
      have : e = (u, v, e.2.2) := by
        ext <;> simp [h1, h2]
      exact this ▸ he⟩
  · rintro ⟨d, hd⟩
    exact ⟨(u, v, d), hd, by simp⟩

lemma addNode_edges (g : ValueGraph) (n : Node) : (addNode g n).edges = g.edges := by
  unfold addNode
  split <;> rfl

lemma addEdge_edges (g : ValueGraph) (u v : Node) (d : EdgeData) :
    (addEdge g u v d).edges = setEdge u v d g.edges := by
  show setEdge u v d (addNode (addNode g u) v).edges = setEdge u v d g.edges
  rw [addNode_edges, addNode_edges]

lemma hasEdge_addEdge_self (g : ValueGraph) (u v : Node) (d : EdgeData) :
    hasEdge (addEdge g u v d) u v = true := by
  rw [hasEdge_iff]
  refine ⟨d, ?_⟩
  rw [addEdge_edges]
  exact mem_setEdge_self u v d g.edges

lemma hasEdge_addEdge_of (g : ValueGraph) (u v u' v' : Node) (d : EdgeData)
    (h : hasEdge g u' v' = true) : hasEdge (addEdge g u v d) u' v' = true := by
  by_cases hk : u' = u ∧ v' = v
  · rw [hk.1, hk.2]
    exact hasEdge_addEdge_self g u v d
  · rcases hasEdge_iff.mp h with ⟨d', hd'⟩
    rw [hasEdge_iff, addEdge_edges]
    refine ⟨d', mem_setEdge_of_mem ?_ hd'⟩
    simpa using hk

lemma foldl_addEdge_hasEdge {β : Type} (f : β → Node × Node × EdgeData) :
    ∀ (l : List β) (g : ValueGraph),
      (∀ u v, hasEdge g u v = true →
        hasEdge (l.foldl (fun h b => addEdge h (f b).1 (f b).2.1 (f b).2.2) g) u v = true) ∧
      ∀ b ∈ l, hasEdge (l.foldl (fun h b => addEdge h (f b).1 (f b).2.1 (f b).2.2) g)
        (f b).1 (f b).2.1 = true := by
  intro l
  induction l with
  | nil => exact fun g => ⟨fun u v h => h, by simp⟩
  | cons x xs ih =>
      intro g
      constructor
      · intro u v h
        exact (ih _).1 u v (hasEdge_addEdge_of _ _ _ _ _ _ h)
      · intro b hb
        rcases List.mem_cons.mp hb with hb | hb
        · subst hb
          exact (ih _).1 _ _ (hasEdge_addEdge_self g _ _ _)
        · exact (ih _).2 b hb

lemma setEdge_map_key (u v : Node) (d : EdgeData) :
    ∀ es : List (Node × Node × EdgeData),
      (setEdge u v d es).map (fun e => (e.1, e.2.1)) =
        if (u, v) ∈ es.map (fun e => (e.1, e.2.1)) then es.map (fun e => (e.1, e.2.1))
        else es.map (fun e => (e.1, e.2.1)) ++ [(u, v)] := by
  intro es
  induction es with
  | nil => simp [setEdge]
  | cons e es ih =>
      unfold setEdge
      split
      · rename_i he
        have hkey : (e.1, e.2.1) = (u, v) := by
          rw [he.1, he.2]
        simp [← hkey]
      · rename_i he
        have hkey : (e.1, e.2.1) ≠ (u, v) := by
          simpa [Prod.ext_iff] using he
        by_cases hmem : (u, v) ∈ es.map (fun e => (e.1, e.2.1))
        · simp only [List.map_cons, ih, if_pos hmem]
          rw [if_pos (List.mem_cons_of_mem _ hmem)]
        · simp only [List.map_cons, ih, if_neg hmem]
          rw [if_neg (by
            intro hc
            rcases List.mem_cons.mp hc with hc | hc
            · exact hkey hc.symm
            · exact hmem hc), List.cons_append]

lemma keysNodup_addEdge (g : ValueGraph) (u v : Node) (d : EdgeData)
    (h : (g.edges.map (fun e => (e.1, e.2.1))).Nodup) :
    ((addEdge g u v d).edges.map (fun e => (e.1, e.2.1))).Nodup := by
  rw [addEdge_edges, setEdge_map_key]
  split
  · exact h
  · rename_i hmem
    rw [List.nodup_append]
    refine ⟨h, List.nodup_singleton _, ?_⟩
    intro a ha hb
    rw [List.mem_singleton.mp hb] at ha
    exact hmem ha

lemma keysNodup_foldl_addEdge {β : Type} (f : β → Node × Node × EdgeData) :
    ∀ (l : List β) (g : ValueGraph),
      (g.edges.map (fun e => (e.1, e.2.1))).Nodup →
      ((l.foldl (fun h b => addEdge h (f b).1 (f b).2.1 (f b).2.2) g).edges.map
        (fun e => (e.1, e.2.1))).Nodup := by
  intro l
  induction l with
  | nil => exact fun g h => h
  | cons x xs ih => exact fun g h => ih _ (keysNodup_addEdge _ _ _ _ h)

lemma foldl_addNode_edges (items : List Item) :
    ∀ g : ValueGraph,
      ((items.foldl (fun g it => addNode g (Node.item it.id)) g)).edges = g.edges := by
  induction items with
  | nil => exact fun g => rfl
  | cons it items ih => exact fun g => (ih _).trans (addNode_edges g _)

/-- Claim C7, amended (the nx DiGraph is a simple graph, so `add_edge`
on an already-present ordered pair OVERWRITES that edge instead of
adding a parallel one): every qualifying price observation leaves an
edge base → item and every qualifying rate observation an edge
source → target, but the built graph holds at most one edge per ordered
node pair — observations sharing a pair share one edge, so their edges
ARE collapsed rather than kept side by side. -/
theorem build_graph_edges (items : List Item) (prices : List PriceRec)
    (rates : List RateRec) (sd ed mc : ℚ) :
    (∀ p ∈ prices, priceQualifies sd ed mc p = true →
      hasEdge (build_graph items prices rates sd ed mc) Node.base (Node.item p.item_id)
        = true) ∧
    (∀ r ∈ rates, rateQualifies sd ed mc r = true →
      hasEdge (build_graph items prices rates sd ed mc) (Node.item r.source_item_id)
        (Node.item r.target_item_id) = true) ∧
    ((build_graph items prices rates sd ed mc).edges.map
      (fun e => (e.1, e.2.1))).Nodup := by
  have hbg : build_graph items prices rates sd ed mc =
      (rates.filter (rateQualifies sd ed mc)).foldl
        (fun g r => addEdge g (Node.item r.source_item_id) (Node.item r.target_item_id)
          (rateEdgeData r))
        ((prices.filter (priceQualifies sd ed mc)).foldl
          (fun g p => addEdge g Node.base (Node.item p.item_id) (priceEdgeData p))
          (items.foldl (fun g it => addNode g (Node.item it.id))
            ({ nodes := [], edges := [] } : ValueGraph))) := rfl
  rw [hbg]
  refine ⟨?_, ?_, ?_⟩
  · intro p hp hq
    refine (foldl_addEdge_hasEdge
      (fun r : RateRec => (Node.item r.source_item_id, Node.item r.target_item_id,
        rateEdgeData r)) _ _).1 _ _ ?_
    exact (foldl_addEdge_hasEdge
      (fun p : PriceRec => (Node.base, Node.item p.item_id, priceEdgeData p)) _ _).2 p
      (List.mem_filter.mpr ⟨hp, hq⟩)
  · intro r hr hq
    exact (foldl_addEdge_hasEdge
      (fun r : RateRec => (Node.item r.source_item_id, Node.item r.target_item_id,
        rateEdgeData r)) _ _).2 r (List.mem_filter.mpr ⟨hr, hq⟩)
  · have h0 : (((items.foldl (fun g it => addNode g (Node.item it.id))
        ({ nodes := [], edges := [] } : ValueGraph)).edges.map
        (fun e => (e.1, e.2.1))).Nodup) := by
      rw [foldl_addNode_edges]
      simp
    have h1 := keysNodup_foldl_addEdge
      (fun p : PriceRec => (Node.base, Node.item p.item_id, priceEdgeData p))
      (prices.filter (priceQualifies sd ed mc)) _ h0
    exact keysNodup_foldl_addEdge
      (fun r : RateRec => (Node.item r.source_item_id, Node.item r.target_item_id,
        rateEdgeData r))
      (rates.filter (rateQualifies sd ed mc)) _ h1

/-- Claim C7, counterexample: two qualifying price observations of the
same item produce a single edge whose attributes are the second
observation's — the first observation's edge has been overwritten, not
kept alongside. -/
theorem build_graph_overwrites_counterexample :
    priceQualifies 0 1 (7 / 10) priceFive = true ∧
      priceQualifies 0 1 (7 / 10) priceSeven = true ∧
      priceFive ≠ priceSeven ∧
      gOverwrite.edges.length = 1 ∧
      findEdge gOverwrite Node.base (Node.item 1) = some (priceEdgeData priceSeven) := by
  with_unfolding_all decide

/-- Claim C7, witness instantiating the amended theorem on the
two-observation build. -/
theorem build_graph_edges_witness :
    hasEdge gOverwrite Node.base (Node.item 1) = true ∧
      (gOverwrite.edges.map (fun e => (e.1, e.2.1))).Nodup :=
  ⟨(build_graph_edges [⟨1⟩] [priceFive, priceSeven] [] 0 1 (7 / 10)).1 priceFive
      (by with_unfolding_all decide) (by with_unfolding_all decide),
   (build_graph_edges [⟨1⟩] [priceFive, priceSeven] [] 0 1 (7 / 10)).2.2⟩

/-! ### Claims C1, C10 — shortest-path lemmas -/

lemma mem_successors {g : ValueGraph} {u v : Node} :
    v ∈ successors g u ↔ ∃ d, (u, v, d) ∈ g.edges := by
  unfold successors
  constructor
  · intro h
    rcases List.mem_map.mp h with ⟨e, he, hev⟩
    rcases List.mem_filter.mp he with ⟨hee, heu⟩
    refine ⟨e.2.2, ?_⟩
    have h1 : e.1 = u := of_decide_eq_true heu
    have : e = (u, v, e.2.2) := by
      ext <;> simp [h1, hev]
    exact this ▸ hee
  · rintro ⟨d, hd⟩
    exact List.mem_map.mpr ⟨(u, v, d), List.mem_filter.mpr ⟨hd, by simp⟩, rfl⟩

lemma hasEdge_iff_successors {g : ValueGraph} {u v : Node} :
    hasEdge g u v = true ↔ v ∈ successors g u := by
  rw [hasEdge_iff, mem_successors]

lemma simplePathsAux_sound {g : ValueGraph} {t : Node} (hwf : WF g) :
    ∀ (fuel : ℕ) (s : Node) (visited : List Node) (p : List Node),
      s ∈ g.nodes → s ∉ visited →
      p ∈ simplePathsAux g t fuel s visited →
      p.head? = some s ∧ p.getLast? = some t ∧ chainB g p = true ∧ p.Nodup ∧
        (∀ x ∈ p, x ∉ visited) ∧ ∀ x ∈ p, x ∈ g.nodes := by
  intro fuel
  induction fuel with
  | zero =>
      intro s visited p _ _ h
      simp [simplePathsAux] at h
  | succ fuel ih =>
      intro s visited p hs hsv h
      unfold simplePathsAux at h
      by_cases hst : s = t
      · rw [if_pos hst] at h
        rcases List.mem_singleton.mp h with rfl
        refine ⟨rfl, by simp [hst], rfl, List.nodup_singleton s, ?_, ?_⟩
        · intro x hx
          rw [List.mem_singleton.mp hx]
          exact hsv
        · intro x hx
          rw [List.mem_singleton.mp hx]
          exact hs
      · rw [if_neg hst] at h
        rcases List.mem_flatMap.mp h with ⟨v, hv, hp⟩
        rcases List.mem_map.mp hp with ⟨p', hp', hpp⟩
        rcases List.mem_filter.mp hv with ⟨hvs, hvnv⟩
        have hvnv' : v ∉ s :: visited := of_decide_eq_true hvnv
        rcases mem_successors.mp hvs with ⟨d, hd⟩
        have hvn : v ∈ g.nodes := (hwf _ hd).2
        have ihp := ih v (s :: visited) p' hvn hvnv' hp'
        obtain ⟨ih1, ih2, ih3, ih4, ih5, ih6⟩ := ihp
        cases p' with
        | nil => simp at ih1
        | cons v' p'' =>
            have hv' : v' = v := by simpa using ih1
            subst hv'
            subst hpp
            refine ⟨rfl, ?_, ?_, ?_, ?_, ?_⟩
            · rw [List.getLast?_cons_cons]
              exact ih2
            · show (hasEdge g s v' && chainB g (v' :: p'')) = true
              rw [hasEdge_iff_successors.mpr hvs, ih3]
              rfl
            · rw [List.nodup_cons]
              refine ⟨?_, ih4⟩
              intro hsp
              exact (ih5 s hsp) (List.mem_cons_self s visited)
            · intro x hx
              rcases List.mem_cons.mp hx with hx | hx
              · rw [hx]; exact hsv
              · exact fun hxv => (ih5 x hx) (List.mem_cons_of_mem s hxv)
            · intro x hx
              rcases List.mem_cons.mp hx with hx | hx
              · rw [hx]; exact hs
              · exact ih6 x hx

lemma simplePathsAux_complete {g : ValueGraph} {t : Node} :
    ∀ (q : List Node) (fuel : ℕ) (s : Node) (visited : List Node),
      q.head? = some s → q.getLast? = some t → chainB g q = true → q.Nodup →
      (∀ x ∈ q, x ∉ visited) → q.length ≤ fuel →
      q ∈ simplePathsAux g t fuel s visited := by
  intro q
  induction q with
  | nil =>
      intro fuel s visited h
      simp at h
  | cons a q ih =>
      intro fuel s visited hh hl hc hnd hv hlen
      have has : a = s := by simpa using hh
      subst has
      cases fuel with
      | zero => simp at hlen
      | succ fuel =>
          unfold simplePathsAux
          by_cases hst : a = t
          · rw [if_pos hst]
            cases q with
            | nil => simp
            | cons b q' =>
                exfalso
                have hlt : t ∈ b :: q' := by
                  rw [List.getLast?_cons_cons] at hl
                  exact List.mem_of_mem_getLast? hl
                rw [← hst] at hlt
                exact (List.nodup_cons.mp hnd).1 hlt
          · rw [if_neg hst]
            cases q with
            | nil =>
                exfalso
                exact hst (by simpa using hl)
            | cons b q' =>
                have hcc : (hasEdge g a b && chainB g (b :: q')) = true := hc
                rcases Bool.and_eq_true_iff.mp hcc with ⟨hab, hcq⟩
                refine List.mem_flatMap.mpr ⟨b, ?_, ?_⟩
                · refine List.mem_filter.mpr ⟨hasEdge_iff_successors.mp hab, ?_⟩
                  refine decide_eq_true ?_
                  intro hbav
                  rcases List.mem_cons.mp hbav with hba | hbv
                  · exact (List.nodup_cons.mp hnd).1 (hba ▸ List.mem_cons_self b q')
                  · exact hv b (List.mem_cons_of_mem a (List.mem_cons_self b q')) hbv
                · refine List.mem_map.mpr ⟨b :: q', ?_, rfl⟩
                  refine ih fuel b (a :: visited) rfl ?_ hcq (List.nodup_cons.mp hnd).2 ?_ ?_
                  · rw [List.getLast?_cons_cons] at hl
                    exact hl
                  · intro x hx
                    intro hxav
                    rcases List.mem_cons.mp hxav with hxa | hxv
                    · exact (List.nodup_cons.mp hnd).1 (hxa ▸ hx)
                    · exact hv x (List.mem_cons_of_mem a hx) hxv
                  · simpa using Nat.le_of_succ_le_succ hlen

lemma isSimplePath_of_mem_simplePaths {g : ValueGraph} {s t : Node} {p : List Node}
    (hwf : WF g) (hs : s ∈ g.nodes) (h : p ∈ simplePaths g s t) :
    IsSimplePath g s t p := by
  have hsound := simplePathsAux_sound hwf (g.nodes.length + 1) s [] p hs
    (List.not_mem_nil s) h
  obtain ⟨h1, h2, h3, h4, _, h6⟩ := hsound
  refine ⟨?_, h1, h2, h3, h4, h6⟩
  intro he
  rw [he] at h1
  simp at h1

lemma mem_simplePaths_of_isSimplePath {g : ValueGraph} {s t : Node} {p : List Node}
    (h : IsSimplePath g s t p) : p ∈ simplePaths g s t := by
  obtain ⟨hne, h1, h2, h3, h4, h5⟩ := h
  refine simplePathsAux_complete p (g.nodes.length + 1) s [] h1 h2 h3 h4
    (by simp) ?_
  have hcard : p.length ≤ g.nodes.length := by
    calc p.length = p.toFinset.card := (List.toFinset_card_of_nodup h4).symm
    _ ≤ g.nodes.toFinset.card :=
        Finset.card_le_card (fun x hx => List.mem_toFinset.mpr
          (h5 x (List.mem_toFinset.mp hx)))
    _ ≤ g.nodes.length := g.nodes.toFinset_card_le
  omega

lemma minStep_go (cost : List Node → ℚ) :
    ∀ (l : List (List Node)) (b m : List Node),
      l.foldl (minStep cost) (some b) = some m →
      (m = b ∨ m ∈ l) ∧ cost m ≤ cost b ∧ ∀ q ∈ l, cost m ≤ cost q := by
  intro l
  induction l with
  | nil =>
      intro b m h
      simp only [List.foldl, Option.some.injEq] at h
      exact ⟨Or.inl h.symm, le_of_eq (by rw [h]), by simp⟩
  | cons x xs ih =>
      intro b m h
      simp only [List.foldl] at h
      by_cases hxb : cost x < cost b
      · rw [show minStep cost (some b) x = some x by simp [minStep, hxb]] at h
        obtain ⟨hm, hc, hall⟩ := ih x m h
        refine ⟨Or.inr ?_, le_of_lt (lt_of_le_of_lt hc hxb), ?_⟩
        · rcases hm with hm | hm
          · exact hm ▸ List.mem_cons_self x xs
          · exact List.mem_cons_of_mem x hm
        · intro q hq
          rcases List.mem_cons.mp hq with hq | hq
          · exact hq ▸ hc
          · exact hall q hq
      · rw [show minStep cost (some b) x = some b by simp [minStep, hxb]] at h
        obtain ⟨hm, hc, hall⟩ := ih b m h
        refine ⟨?_, hc, ?_⟩
        · rcases hm with hm | hm
          · exact Or.inl hm
          · exact Or.inr (List.mem_cons_of_mem x hm)
        · intro q hq
          rcases List.mem_cons.mp hq with hq | hq
          · rw [hq]
            exact le_trans hc (le_of_not_lt hxb)
          · exact hall q hq

lemma minBy_spec (cost : List Node → ℚ) (l : List (List Node)) (m : List Node)
    (h : minBy cost l = some m) : m ∈ l ∧ ∀ q ∈ l, cost m ≤ cost q := by
  cases l with
  | nil => simp [minBy] at h
  | cons x xs =>
      have h' : xs.foldl (minStep cost) (some x) = some m := h
      obtain ⟨hm, hc, hall⟩ := minStep_go cost xs x m h'
      constructor
      · rcases hm with hm | hm
        · exact hm ▸ List.mem_cons_self x xs
        · exact List.mem_cons_of_mem x hm
      · intro q hq
        rcases List.mem_cons.mp hq with hq | hq
        · exact hq ▸ hc
        · exact hall q hq

/-- Claim C1, amended (the code does not raise — no
`UnreachableItemError` exists anywhere in the repository; instead
`get_shortest_path` catches `nx.NetworkXNoPath`, logs a warning and
returns the EMPTY LIST sentinel): for any weight attribute, when no
directed path connects the two nodes, the call returns `[]`. -/
theorem no_path_returns_empty_list (g : ValueGraph) (s t : Node) (w : String)
    (hwf : WF g) (hs : s ∈ g.nodes) (ht : t ∈ g.nodes)
    (hnp : ¬ ∃ p, IsSimplePath g s t p) :
    get_shortest_path g s t w = [] := by
  unfold get_shortest_path
  cases hmb : minBy (pathCost g w) (simplePaths g s t) with
  | none => rfl
  | some p =>
      exact absurd ⟨p, isSimplePath_of_mem_simplePaths hwf hs
        (minBy_spec _ _ _ hmb).1⟩ hnp

/-- Claim C1, witness instantiating the amended theorem on a concrete
two-node edgeless graph. -/
theorem no_path_returns_empty_list_witness :
    get_shortest_path gNoEdges (Node.item 1) (Node.item 2) "confidence" = [] :=
  no_path_returns_empty_list gNoEdges (Node.item 1) (Node.item 2) "confidence"
    (by with_unfolding_all decide) (by with_unfolding_all decide)
    (by with_unfolding_all decide)
    (fun ⟨p, hp⟩ => by
      have h := mem_simplePaths_of_isSimplePath hp
      rw [show simplePaths gNoEdges (Node.item 1) (Node.item 2) = [] from by
        with_unfolding_all decide] at h
      exact absurd h (List.not_mem_nil p))

/-- Claim C1, counterexample: on a graph where no path connects the two
items, the call does NOT fail with an error naming both items — it
silently returns the empty-path sentinel, precisely the behaviour the
claim rules out. -/
theorem unreachable_returns_sentinel_counterexample :
    (¬ ∃ p, IsSimplePath gNoEdges (Node.item 1) (Node.item 2) p) ∧
      get_shortest_path gNoEdges (Node.item 1) (Node.item 2) "confidence" = [] := by
  constructor
  · rintro ⟨p, hp⟩
    have h := mem_simplePaths_of_isSimplePath hp
    rw [show simplePaths gNoEdges (Node.item 1) (Node.item 2) = [] from by
      with_unfolding_all decide] at h
    exact absurd h (List.not_mem_nil p)
  · with_unfolding_all decide

/-- Claim C10 (confirmed): called without an explicit weight argument,
`get_shortest_path` routes on the raw `'confidence'` edge attribute, so
the returned path (when one exists) minimizes the SUM of edge
confidences over all directed duplicate-free paths between the two
nodes — higher-confidence edges make a path more expensive. -/
theorem default_weight_minimizes_confidence_sum (g : ValueGraph) (s t : Node)
    (p : List Node) (hwf : WF g) (hs : s ∈ g.nodes) (ht : t ∈ g.nodes)
    (hconf : ∀ e ∈ g.edges, 0 ≤ e.2.2.confidence)
    (hp : get_shortest_path_default g s t = p) (hne : p ≠ []) :
    IsSimplePath g s t p ∧
      ∀ q, IsSimplePath g s t q →
        pathCost g "confidence" p ≤ pathCost g "confidence" q := by
  unfold get_shortest_path_default get_shortest_path at hp
  cases hmb : minBy (pathCost g "confidence") (simplePaths g s t) with
  | none =>
      rw [hmb] at hp
      exact absurd hp.symm (by simpa using hne)
  | some m =>
      rw [hmb] at hp
      have hmp : m = p := hp
      subst hmp
      have hspec := minBy_spec _ _ _ hmb
      refine ⟨isSimplePath_of_mem_simplePaths hwf hs hspec.1, ?_⟩
      intro q hq
      exact hspec.2 q (mem_simplePaths_of_isSimplePath hq)

/-- Claim C10, witness: in the concrete detour graph, the default call
returns the LOW-confidence two-hop path (total cost 0.8) in preference
to the high-confidence direct edge (cost 0.9) — the opposite of
inverse-confidence routing — and that path minimizes the confidence
sum. -/
theorem default_weight_minimizes_confidence_sum_witness :
    IsSimplePath gDetour (Node.item 1) (Node.item 3)
        [Node.item 1, Node.item 2, Node.item 3] ∧
      ∀ q, IsSimplePath gDetour (Node.item 1) (Node.item 3) q →
        pathCost gDetour "confidence" [Node.item 1, Node.item 2, Node.item 3] ≤
          pathCost gDetour "confidence" q :=
  default_weight_minimizes_confidence_sum gDetour (Node.item 1) (Node.item 3)
    [Node.item 1, Node.item 2, Node.item 3]
    (by with_unfolding_all decide) (by with_unfolding_all decide)
    (by with_unfolding_all decide) (by with_unfolding_all decide)
    (by with_unfolding_all decide) (by with_unfolding_all decide)

end SVU
